import Mathlib

/-!
Verification development for the PanLearning notebook
"WL-dependent scattering of DFT-optimized CB systems".

The notebook's own code consists of: the HKL metadata reader `read_hkl`
(a memory-mapped text scan), the parameter mapper `hkl_to_powdern_pms`,
the sample runner / sweep orchestrator loops (execute mode and replay
mode), and the comparison plotter `plot_diffr`.  This file shallowly
embeds those fragments, faithfully modelling the Python/mmap semantics
they rely on:

* `mmap.find(sub)` searches from the *current* file position (CPython
  `mmap_gfind` defaults `start` to `self->pos`) and returns the `-1`
  sentinel on failure;
* `mmap.seek(-1)` raises `ValueError: seek out of range`;
* `bytes.strip` / `bytes.split()` split on whitespace runs;
* `float(...)` parses a signed decimal with optional fraction/exponent;
* an assignment to a name inside a Python `def` (without a `global`
  declaration) creates a function-local binding.

File contents are `String`s, scanned as their `List Char` of bytes.
Numeric values are modelled as exact scaled decimals (`Dec`), with an
interpretation `Dec.toRat` into `ℚ`.
-/

/-- Python whitespace characters relevant to `bytes.strip`/`bytes.split`. -/
def pySpace (c : Char) : Bool :=
  c = ' ' || c = '\t' || c = '\n' || c = '\x0d' || c = '\x0b' || c = '\x0c'

/-- First index (from the head) at which `pat` occurs as a contiguous
substring of `s`; `none` when it does not occur.  This is the search
primitive underlying `mmap.find` (which returns `-1`, modelled `none`,
on failure). -/
def strFind (s pat : List Char) : Option Nat :=
  if pat.isPrefixOf s then some 0
  else
    match s with
    | [] => none
    | _ :: t => (strFind t pat).map (· + 1)

/-- `mmap.readline` payload: the characters from the current position up
to and including the next newline (or to the end of the buffer). -/
def takeLine : List Char → List Char
  | [] => []
  | c :: t => if c = '\n' then ['\n'] else c :: takeLine t

/-- `bytes.strip()`: drop leading and trailing whitespace. -/
def pyStrip (s : List Char) : List Char :=
  ((s.dropWhile pySpace).reverse.dropWhile pySpace).reverse

/-- Worker for `pyWords`: accumulates the current word (reversed). -/
def wordsAux : List Char → List Char → List (List Char)
  | [], acc => if acc = [] then [] else [acc.reverse]
  | c :: t, acc =>
    if pySpace c then
      if acc = [] then wordsAux t [] else acc.reverse :: wordsAux t []
    else wordsAux t (c :: acc)

/-- `bytes.split()` with no separator: split on runs of whitespace,
discarding empty words. -/
def pyWords (s : List Char) : List (List Char) :=
  wordsAux s []

/-- Numeric value of a digit string (most significant first). -/
def digitsVal (ds : List Char) : Nat :=
  ds.foldl (fun a c => 10 * a + (c.toNat - 48)) 0

/-- Leading optional sign of a numeric literal: `(sign, rest)`. -/
def parseSign : List Char → ℤ × List Char
  | '+' :: r => (1, r)
  | '-' :: r => (-1, r)
  | r => (1, r)

/-- Exact scaled decimal: the value `m * 10 ^ e`.  Every numeric literal
this notebook handles (decimal tokens of HKL files, the configured
wavelength and ray-count floats) is an exact decimal, so `Dec` embeds
them without floating-point error.  Structural equality is used only on
values produced by one and the same computation; mathematical equality
goes through `Dec.toRat`. -/
structure Dec where
  m : ℤ
  e : ℤ
  deriving DecidableEq

/-- The rational value denoted by a scaled decimal. -/
def Dec.toRat (d : Dec) : ℚ :=
  (d.m : ℚ) * (10 : ℚ) ^ d.e

/-- Python's `float(...)` on a token, translated to exact decimals:
`[sign] (digits [. digits] | . digits) [(e|E) [sign] digits]`.
Returns `none` (a `ValueError` in Python) on any other shape.
(`inf`/`nan`/underscore forms never arise from numeric HKL fields and
are likewise rejected.) -/
def pyFloat (s : List Char) : Option Dec :=
  let (sg, s1) := parseSign s
  let ip := s1.takeWhile Char.isDigit
  let s2 := s1.dropWhile Char.isDigit
  let (fp, s3) :=
    match s2 with
    | '.' :: r => (r.takeWhile Char.isDigit, r.dropWhile Char.isDigit)
    | _ => ([], s2)
  if ip = [] && fp = [] then none
  else
    let m : ℤ := sg * ((digitsVal ip * 10 ^ fp.length + digitsVal fp : ℕ) : ℤ)
    match s3 with
    | [] => some ⟨m, -(fp.length : ℤ)⟩
    | c :: r =>
      if c = 'e' || c = 'E' then
        let (es, r1) := parseSign r
        let ed := r1.takeWhile Char.isDigit
        let r2 := r1.dropWhile Char.isDigit
        if ed = [] || r2 ≠ [] then none
        else some ⟨m, es * (digitsVal ed : ℤ) - (fp.length : ℤ)⟩
      else none

/-- Errors arising in the embedded fragments.  The first four are the
Python exceptions the source can actually raise; the last two belong to
the spec's error taxonomy (`MissingFieldError`, `DatasetNotFoundError`).
`missingField` is never produced by the source-translated reader;
`datasetNotFound` is produced by the spec-modelled replay loader. -/
inductive Err
  | valueErrorSeekOutOfRange
  | indexError
  | valueErrorFloat (tok : String)
  | keyError (k : String)
  | missingField (name : String)
  | datasetNotFound (path : String)
  deriving DecidableEq

deriving instance DecidableEq for Except

/-- State of the writable memory-mapped file: its byte content and the
current file position.  `read_hkl` opens the file `"r+b"` and maps it
with (default) write access; the operations it performs are `find`,
`seek` and `readline`. -/
structure MM where
  data : List Char
  pos : Nat
  deriving DecidableEq

/-- `mm.find(pat)`: first occurrence of `pat` at or after the current
position (CPython defaults the search start to `self->pos`); `none` is
the `-1` sentinel.  Does not move the position. -/
def mmFindFrom (mm : MM) (pat : List Char) : Option Nat :=
  (strFind (mm.data.drop mm.pos) pat).map (· + mm.pos)

/-- `mm.seek(p)` for an in-range `p`: set the position. -/
def mmSeek (mm : MM) (p : Nat) : MM :=
  { mm with pos := p }

/-- `mm.readline()`: the line starting at the current position (newline
included), advancing the position past it. -/
def mmReadline (mm : MM) : List Char × MM :=
  let line := takeLine (mm.data.drop mm.pos)
  (line, { mm with pos := mm.pos + line.length })

/-- The fixed parameter list scanned by `read_hkl`, in source order. -/
def hklParams : List String :=
  ["sigma_coh", "sigma_inc", "sigma_abs", "density", "weight", "Vc",
   "lattice_a", "lattice_b", "lattice_c", "lattice_aa", "lattice_bb",
   "lattice_cc"]

/-- One iteration of the `read_hkl` loop body:
`mm.seek(mm.find(pm)); vals[pm] = float(mm.readline().strip().split()[1])`.
A failed `find` yields the `-1` sentinel, so the `seek` raises
`ValueError: seek out of range`; a one-token line raises `IndexError`;
a non-numeric second token raises `ValueError` from `float`. -/
def readParam (mm : MM) (pm : List Char) : Except Err Dec × MM :=
  match mmFindFrom mm pm with
  | none => (.error .valueErrorSeekOutOfRange, mm)
  | some p =>
    let mm1 := mmSeek mm p
    let (line, mm2) := mmReadline mm1
    match (pyWords (pyStrip line)).get? 1 with
    | none => (.error .indexError, mm2)
    | some t =>
      match pyFloat t with
      | none => (.error (.valueErrorFloat (String.mk t)), mm2)
      | some q => (.ok q, mm2)

/-- The `read_hkl` parameter loop: scans the parameters in order,
threading the mmap position; the first exception aborts the loop and
discards the partially built `vals` dictionary. -/
def read_hklAux : List String → MM → Except Err (List (String × Dec)) × MM
  | [], mm => (.ok [], mm)
  | pm :: rest, mm =>
    match readParam mm pm.data with
    | (.error e, mm') => (.error e, mm')
    | (.ok q, mm') =>
      match read_hklAux rest mm' with
      | (.error e, mm'') => (.error e, mm'')
      | (.ok vs, mm'') => (.ok ((pm, q) :: vs), mm'')

/-- `read_hkl`: read the physical parameters from an HKL file produced
by cif2hkl.  The result is the `vals` mapping in insertion order. -/
def read_hkl (content : String) : Except Err (List (String × Dec)) :=
  (read_hklAux hklParams ⟨content.data, 0⟩).1

/-- The mmap state left behind by the `read_hkl` scan (used to state
that the scan never writes through the mapping). -/
def read_hklFinalMM (content : String) : MM :=
  (read_hklAux hklParams ⟨content.data, 0⟩).2


/-- Association-list lookup, modelling Python `dict` access on the
insertion-ordered `vals` dictionary. -/
def alookup {α : Type} (k : String) : List (String × α) → Option α
  | [] => none
  | (k', v) :: t => if k' = k then some v else alookup k t

/-- Value of a PowderN input parameter: a number or a string literal. -/
inductive PmVal
  | num (d : Dec)
  | str (s : String)
  deriving DecidableEq

/-- `hkl_to_powdern_pms`: parse the hkl file and return the PowderN
input-parameter dictionary.  The source takes only the file path and
opens it itself; the embedding passes the file's content alongside the
path.  A missing dictionary key would raise `KeyError` in Python,
modelled by `Err.keyError`; `barns` is the integer constant `1`. -/
def hkl_to_powdern_pms (hkl_file : String) (content : String) :
    Except Err (List (String × PmVal)) :=
  match read_hkl content with
  | .error e => .error e
  | .ok hkl_data =>
    match alookup "Vc" hkl_data, alookup "density" hkl_data, alookup "weight" hkl_data,
        alookup "sigma_abs" hkl_data, alookup "sigma_inc" hkl_data with
    | some vVc, some vDensity, some vWeight, some vSigmaAbs, some vSigmaInc =>
      .ok [("Vc", .num vVc), ("density", .num vDensity), ("weight", .num vWeight),
           ("sigma_abs", .num vSigmaAbs), ("sigma_inc", .num vSigmaInc),
           ("reflections", .str ("\"" ++ hkl_file ++ "\"")), ("barns", .num ⟨1, 0⟩)]
    | none, _, _, _, _ => .error (.keyError "Vc")
    | some _, none, _, _, _ => .error (.keyError "density")
    | some _, some _, none, _, _ => .error (.keyError "weight")
    | some _, some _, some _, none, _ => .error (.keyError "sigma_abs")
    | some _, some _, some _, some _, none => .error (.keyError "sigma_inc")

/-- The f-string conversion `{x:.1f}` on a nonnegative value (all
configured wavelengths are nonnegative): round `x * 10` to an integer,
ties to even (Python rounds the shortest decimal the float denotes),
and print it with one digit after the point. -/
def format1f (d : Dec) : String :=
  let n : ℤ :=
    if 0 ≤ d.e + 1 then d.m * (10 : ℤ) ^ (d.e + 1).toNat
    else
      let den : ℤ := (10 : ℤ) ^ (-(d.e + 1)).toNat
      let q := d.m.fdiv den
      let r := d.m - q * den
      if 2 * r < den then q
      else if den < 2 * r then q + 1
      else if q % 2 = 0 then q else q + 1
  toString (n.fdiv 10) ++ "." ++ toString (n.fmod 10)

/-- The output-folder path formula shared by execute mode
(`run_on_sample`) and replay mode:
`f"{output_folder}/{prefix}_{lambda0:.1f}_{sample_name}"`. -/
def folderName (outF pf : String) (lambda0 : Dec) (sample : String) : String :=
  outF ++ "/" ++ pf ++ "_" ++ format1f lambda0 ++ "_" ++ sample

/-- Configured McStas output folder. -/
def output_folder : String := "./results"

/-- Configured output-folder name part (the notebook variable named by
the Lean keyword for a front affix), `"d2b_test"`. -/
def pfx : String := "d2b_test"

/-- Configured additional output-folder name part used by replay mode
(the notebook variable named by the Lean keyword for a rear affix),
`""`. -/
def pofx : String := ""

/-- Configured wavelengths `lambda0s = 1.0, 1.5, 2.0, 2.5`
(exact decimals). -/
def lambda0s : List Dec := [⟨10, -1⟩, ⟨15, -1⟩, ⟨20, -1⟩, ⟨25, -1⟩]

/-- Configured sample table: insertion-ordered mapping from crystal
name to its HKL file path (`crystal_hkls`, built from `crystal_cifs`
with `hkl_folder = "./hkl"`). -/
def crystal_hkls : List (String × String) :=
  [("c16", "./hkl/c16.hkl"), ("c15b1", "./hkl/c15b1.hkl"),
   ("c14b2a", "./hkl/c14b2a.hkl"), ("c14b2b", "./hkl/c14b2b.hkl"),
   ("c14b2c", "./hkl/c14b2c.hkl")]

/-- The configured Cartesian product of Sweep Points:
wavelengths (outer, in order) x sample identifiers (inner, in order). -/
def sweepPoints : List (Dec × String) :=
  lambda0s.flatMap (fun w => crystal_hkls.map (fun s => (w, s.1)))


/-- Modelled from the spec: the external simulator's
`increment_folder_name=True` policy ("requesting that a numeric suffix
be appended if that exact folder already exists").  The folder list is
used as fuel, so the search for a free suffix terminates. -/
def incrementName (fs : List String) (base : String) : String :=
  if base ∈ fs then go fs base 1 else base
where
  go : List String → String → Nat → String
    | [], base, i => base ++ "_" ++ toString i
    | _ :: t, base, i =>
      if base ++ "_" ++ toString i ∈ fs then go t base (i + 1)
      else base ++ "_" ++ toString i

/-- Inner execute-mode loop over the sample table at one wavelength.
Each iteration is one `run_on_sample` call: it derives the deterministic
folder name, hands it to the external simulator (which appends a numeric
suffix on collision) and records the returned Result Dataset, here
identified by the folder the simulator actually used.  Returns the
folder list after the runs and the inner result mapping in insertion
order. -/
def execInner (outF pf : String) (w : Dec) :
    List (String × String) → List String → List String × List (String × String)
  | [], fs => (fs, [])
  | (crys, _hkl) :: rest, fs =>
    let base := folderName outF pf w crys
    let fo := incrementName fs base
    let fs' := fs ++ [fo]
    let (fs'', row) := execInner outF pf w rest fs'
    (fs'', (crys, fo) :: row)

/-- Execute-mode sweep: outer loop over the configured wavelengths,
inner loop over the configured samples, building
`results[lambda0][crys]`.  Returns the folder list after all runs and
the Result Collection. -/
def execOuter (outF pf : String) :
    List Dec → List (String × String) → List String →
      List String × List (Dec × List (String × String))
  | [], _, fs => (fs, [])
  | w :: ws, samples, fs =>
    let (fs', row) := execInner outF pf w samples fs
    let (fs'', rows) := execOuter outF pf ws samples fs'
    (fs'', (w, row) :: rows)

/-- Modelled from the spec: the external loader `load_data(folder)`
reconstructs a Result Dataset from a previously written folder and
"fails with a `DatasetNotFoundError` if the folder is absent or
unreadable; no fallback to execution".  The dataset is identified by
its folder. -/
def load_data (fs : List String) (folder : String) : Except Err String :=
  if folder ∈ fs then .ok folder else .error (.datasetNotFound folder)

/-- Inner replay-mode loop at one wavelength: recompute the
deterministic folder (with the extra rear affix) and load the dataset;
the first failure aborts the whole replay. -/
def replayInner (outF pf po : String) (w : Dec) (fs : List String) :
    List String → Except Err (List (String × String))
  | [] => .ok []
  | crys :: rest =>
    match load_data fs (folderName outF pf w crys ++ po) with
    | .error e => .error e
    | .ok d =>
      match replayInner outF pf po w fs rest with
      | .error e => .error e
      | .ok row => .ok ((crys, d) :: row)

/-- Replay-mode sweep: same loop structure as execute mode, loading
every Sweep Point's dataset from disk instead of running the
simulator. -/
def replayOuter (outF pf po : String) (fs : List String) :
    List Dec → List String → Except Err (List (Dec × List (String × String)))
  | [], _ => .ok []
  | w :: ws, samples =>
    match replayInner outF pf po w fs samples with
    | .error e => .error e
    | .ok row =>
      match replayOuter outF pf po fs ws samples with
      | .error e => .error e
      | .ok rows => .ok ((w, row) :: rows)

/-- The (wavelength, sample identifier) key pairs of a Result
Collection, flattened in construction order. -/
def collKeys {α : Type} (coll : List (Dec × List (String × α))) : List (Dec × String) :=
  coll.flatMap (fun wr => wr.2.map (fun p => (wr.1, p.1)))

/-- The fields the Comparison Plotter reads out of one Result Dataset
(`functions.name_search(instrument_name, data)`). -/
structure PatternData where
  Ncount : Dec
  Intensity : List Dec
  xaxis : List Dec
  deriving DecidableEq

/-- The sweep-configuration globals `plot_diffr` can see.  `ncount` is
the configured ray count (`1e7`). -/
structure Globals where
  ncount : Dec
  deriving DecidableEq

/-- The environment of one `plot_diffr` call: the enclosing globals and
the function-local binding of the name `ncount`.  In Python, a name
assigned anywhere in a `def` body (without a `global` declaration) is
local to that function, so `ncount = pattern.Ncount` creates
`ncountLocal` and leaves `Globals.ncount` alone. -/
structure PlotEnv where
  g : Globals
  ncountLocal : Option Dec
  deriving DecidableEq

/-- Association-list lookup with `Dec` keys (the outer level of the
Result Collection, keyed by wavelength). -/
def alookupD {α : Type} (k : Dec) : List (Dec × α) → Option α
  | [] => none
  | (k', v) :: t => if k' = k then some v else alookupD k t

/-- One inner iteration of `plot_diffr`: fetch
`results[lambda0][crys]`, read its metadata (among them
`ncount = pattern.Ncount`), and plot.  A missing key raises
`KeyError`. -/
def plotStep (results : List (Dec × List (String × PatternData))) (w : Dec)
    (env : PlotEnv) (crys : String) : Except Err PlotEnv :=
  match alookupD w results with
  | none => .error (.keyError (format1f w))
  | some row =>
    match alookup crys row with
    | none => .error (.keyError crys)
    | some pattern => .ok { env with ncountLocal := some pattern.Ncount }


/-- Inner plot loop: `for i, crys in enumerate(crystals_to_plot)` at one
wavelength. -/
def plotInner (results : List (Dec × List (String × PatternData))) (w : Dec) :
    PlotEnv → List String → PlotEnv × Option Err
  | env, [] => (env, none)
  | env, crys :: rest =>
    match plotStep results w env crys with
    | .error e => (env, some e)
    | .ok env' => plotInner results w env' rest

/-- `plot_diffr(crystals_to_plot)`: one chart per configured wavelength,
overlaying the requested samples' intensity curves.  The call returns
the final environment (globals plus the dangling function-local
`ncount`) and the first error, if any; an error propagates out of the
function, leaving the globals as they were. -/
def plot_diffr (wls : List Dec) (results : List (Dec × List (String × PatternData)))
    (crystals_to_plot : List String) : PlotEnv → PlotEnv × Option Err
  | env =>
    match wls with
    | [] => (env, none)
    | w :: ws =>
      match plotInner results w env crystals_to_plot with
      | (env', none) => plot_diffr ws results crystals_to_plot env'
      | (env', some e) => (env', some e)


/-- One field line of a Reflection-List File:
`<name><gap><value token><trailing text>\n`. -/
structure HklRow where
  name : String
  gap : List Char
  tok : List Char
  trailing : List Char

/-- The characters of one field line. -/
def rowChars (r : HklRow) : List Char :=
  r.name.data ++ r.gap ++ r.tok ++ r.trailing ++ ['\n']

/-- The characters of a sequence of field lines. -/
def flatRows : List HklRow → List Char
  | [] => []
  | r :: t => rowChars r ++ flatRows t

/-- A Reflection-List File assembled from field lines. -/
def mkFile (rows : List HklRow) : String :=
  String.mk (flatRows rows)

/-- Well-formedness of one field line: nonempty whitespace-free name,
nonempty all-space gap, nonempty whitespace-free value token, and
trailing text that is newline-free and, when present, starts with a
space (so it cannot glue onto the value token).  Decidable, so concrete
rows are checked by `decide`. -/
abbrev GoodRow (r : HklRow) : Prop :=
  r.name.data ≠ [] ∧ (∀ c ∈ r.name.data, pySpace c = false) ∧
  r.gap ≠ [] ∧ (∀ c ∈ r.gap, c = ' ') ∧
  r.tok ≠ [] ∧ (∀ c ∈ r.tok, pySpace c = false) ∧
  (∀ c ∈ r.trailing, c ≠ '\n') ∧
  (r.trailing = [] ∨ r.trailing.head? = some ' ')

/-- The folder names recorded in a Result Collection, flattened in
construction order. -/
def collFolders (coll : List (Dec × List (String × String))) : List String :=
  coll.flatMap (fun wr => wr.2.map Prod.snd)

/-- The C8 example file, as field lines: all twelve fields in scan
order, with extra spaces and a trailing comment on the `sigma_abs`
line, paired with the value each line's token denotes. -/
def c8Rows : List (HklRow × Dec) :=
  [(⟨"sigma_coh", [' '], "5.56".data, []⟩, ⟨556, -2⟩),
   (⟨"sigma_inc", [' '], "0.0".data, []⟩, ⟨0, -1⟩),
   (⟨"sigma_abs", [' ', ' ', ' '], "0.1720".data, "   # comment".data⟩, ⟨1720, -4⟩),
   (⟨"density", [' '], "3.513".data, []⟩, ⟨3513, -3⟩),
   (⟨"weight", [' '], "12.011".data, []⟩, ⟨12011, -3⟩),
   (⟨"Vc", [' '], "45.385".data, []⟩, ⟨45385, -3⟩),
   (⟨"lattice_a", [' '], "3.57".data, []⟩, ⟨357, -2⟩),
   (⟨"lattice_b", [' '], "3.57".data, []⟩, ⟨357, -2⟩),
   (⟨"lattice_c", [' '], "3.57".data, []⟩, ⟨357, -2⟩),
   (⟨"lattice_aa", [' '], "90".data, []⟩, ⟨90, 0⟩),
   (⟨"lattice_bb", [' '], "90".data, []⟩, ⟨90, 0⟩),
   (⟨"lattice_cc", [' '], "90".data, []⟩, ⟨90, 0⟩)]

/-- The C8 example file (a Reflection-List File containing the line
`sigma_abs   0.1720   # comment`). -/
def c8File : String :=
  mkFile (c8Rows.map Prod.fst)

/-- A Reflection-List File containing all twelve required fields, each
on its own line as `<name> <value>`, but with `density` first — a field
order the sequential mmap scan cannot handle. -/
def c1File : String :=
  "density 3.5\nsigma_coh 5.5\nsigma_inc 0.0\nsigma_abs 0.003\nweight 12.0\nVc 45.3\nlattice_a 3.57\nlattice_b 3.57\nlattice_c 3.57\nlattice_aa 90\nlattice_bb 90\nlattice_cc 90\n"

/-- A Reflection-List File from which `sigma_coh` is absent (the other
eleven fields are present, in scan order). -/
def c2File : String :=
  "sigma_inc 0.0\nsigma_abs 0.003\ndensity 3.5\nweight 12.0\nVc 45.3\nlattice_a 3.57\nlattice_b 3.57\nlattice_c 3.57\nlattice_aa 90\nlattice_bb 90\nlattice_cc 90\n"

/-- A Result Dataset whose ray-count metadata field `Ncount` is 42
(differing from the configured sweep ray count `1e7`). -/
def demoPattern : PatternData :=
  ⟨⟨42, 0⟩, [], []⟩

/-- A one-point Result Collection holding `demoPattern` at
wavelength 1.0, sample `"c16"`. -/
def demoResults : List (Dec × List (String × PatternData)) :=
  [(⟨10, -1⟩, [("c16", demoPattern)])]

theorem strFind_of_isPrefixOf (s pat : List Char) (h : pat.isPrefixOf s = true) :
    strFind s pat = some 0 := by
  unfold strFind
  simp [h]

theorem takeLine_append (xs rest : List Char) (h : ∀ c ∈ xs, c ≠ '\n') :
    takeLine (xs ++ '\n' :: rest) = xs ++ ['\n'] := by
  induction xs with
  | nil => simp [takeLine]
  | cons c t ih =>
    have hc : c ≠ '\n' := h c (by simp)
    simp only [List.cons_append, takeLine, if_neg hc, List.append_eq]
    rw [ih (fun x hx => h x (by simp [hx]))]

theorem wordsAux_word (w : List Char) (hw : ∀ c ∈ w, pySpace c = false) :
    ∀ rest acc, wordsAux (w ++ rest) acc = wordsAux rest (w.reverse ++ acc) := by
  induction w with
  | nil => intro rest acc; simp
  | cons c t ih =>
    intro rest acc
    have hc : pySpace c = false := hw c (by simp)
    have ht : ∀ x ∈ t, pySpace x = false := fun x hx => hw x (by simp [hx])
    simp only [List.cons_append, wordsAux, hc, Bool.false_eq_true, if_false, List.append_eq]
    rw [ih ht rest (c :: acc)]
    simp [List.append_assoc]

theorem wordsAux_spaces_acc (g : List Char) (hg : ∀ c ∈ g, pySpace c = true) :
    ∀ acc, wordsAux g acc = wordsAux [] acc := by
  induction g with
  | nil => intro acc; rfl
  | cons c t ih =>
    intro acc
    have hc : pySpace c = true := hg c (by simp)
    have ht : ∀ x ∈ t, pySpace x = true := fun x hx => hg x (by simp [hx])
    by_cases ha : acc = []
    · subst ha
      simp only [wordsAux, hc, if_true, if_pos rfl]
      rw [ih ht []]
      rfl
    · simp only [wordsAux, hc, if_true, if_neg ha]
      rw [ih ht []]
      simp [wordsAux, ha]

theorem wordsAux_spaces_lead (g rest : List Char) (hg : ∀ c ∈ g, pySpace c = true) :
    wordsAux (g ++ rest) [] = wordsAux rest [] := by
  induction g with
  | nil => rfl
  | cons c t ih =>
    have hc : pySpace c = true := hg c (by simp)
    simp only [List.cons_append, wordsAux, hc, if_true, if_pos rfl]
    exact ih (fun x hx => hg x (by simp [hx]))

theorem wordsAux_space_emit (c : Char) (rest acc : List Char)
    (hc : pySpace c = true) (ha : acc ≠ []) :
    wordsAux (c :: rest) acc = acc.reverse :: wordsAux rest [] := by
  simp [wordsAux, hc, ha]

theorem wordsAux_append_spaces (x sp : List Char) (hsp : ∀ c ∈ sp, pySpace c = true) :
    ∀ acc, wordsAux (x ++ sp) acc = wordsAux x acc := by
  induction x with
  | nil => intro acc; simpa using wordsAux_spaces_acc sp hsp acc
  | cons c t ih =>
    intro acc
    by_cases hc : pySpace c = true
    · by_cases ha : acc = []
      · subst ha; simp only [List.cons_append, wordsAux, hc, if_true, if_pos rfl]; exact ih []
      · simp only [List.cons_append, wordsAux, hc, if_true, if_neg ha, List.append_eq]; rw [ih []]
    · have hc' : pySpace c = false := by simpa using hc
      simp only [List.cons_append, wordsAux, hc', Bool.false_eq_true, if_false]
      exact ih (c :: acc)

theorem wordsAux_dropWhile (l : List Char) :
    wordsAux (l.dropWhile pySpace) [] = wordsAux l [] := by
  induction l with
  | nil => rfl
  | cons c t ih =>
    by_cases hc : pySpace c = true
    · rw [List.dropWhile_cons]
      simp only [hc, if_true, if_pos rfl]
      rw [ih]
      simp [wordsAux, hc]
    · have hc' : pySpace c = false := by simpa using hc
      rw [List.dropWhile_cons]
      simp [hc']

theorem pyWords_pyStrip (l : List Char) : pyWords (pyStrip l) = pyWords l := by
  unfold pyStrip pyWords
  have hdecomp : l.dropWhile pySpace =
      ((l.dropWhile pySpace).reverse.dropWhile pySpace).reverse ++
        ((l.dropWhile pySpace).reverse.takeWhile pySpace).reverse := by
    rw [← List.reverse_append, List.takeWhile_append_dropWhile, List.reverse_reverse]
  have hsp : ∀ c ∈ ((l.dropWhile pySpace).reverse.takeWhile pySpace).reverse,
      pySpace c = true := by
    intro c hc
    rw [List.mem_reverse] at hc
    exact List.mem_takeWhile_imp hc
  calc wordsAux ((l.dropWhile pySpace).reverse.dropWhile pySpace).reverse [] =
      wordsAux (((l.dropWhile pySpace).reverse.dropWhile pySpace).reverse ++
        ((l.dropWhile pySpace).reverse.takeWhile pySpace).reverse) [] := by
        rw [wordsAux_append_spaces _ _ hsp]
    _ = wordsAux (l.dropWhile pySpace) [] := by rw [← hdecomp]
    _ = wordsAux l [] := wordsAux_dropWhile l

theorem pyWords_rowChars (r : HklRow) (hr : GoodRow r) :
    ∃ ws, pyWords (rowChars r) = r.name.data :: r.tok :: ws := by
  obtain ⟨hn, hns, hg, hgs, htk, htks, _htr, hsh⟩ := hr
  have hnr : r.name.data.reverse ≠ [] := by
    simp only [ne_eq, List.reverse_eq_nil_iff]; exact hn
  have htkr : r.tok.reverse ≠ [] := by
    simp only [ne_eq, List.reverse_eq_nil_iff]; exact htk
  obtain ⟨g0, g', hgap⟩ : ∃ g0 g', r.gap = g0 :: g' := by
    cases hgap : r.gap with
    | nil => exact absurd hgap hg
    | cons a b => exact ⟨a, b, rfl⟩
  have hg0 : pySpace g0 = true := by
    have : g0 = ' ' := hgs g0 (by rw [hgap]; simp)
    rw [this]; decide
  have hg' : ∀ c ∈ g', pySpace c = true := by
    intro c hc
    have : c = ' ' := hgs c (by rw [hgap]; simp [hc])
    rw [this]; decide
  unfold pyWords rowChars
  rw [hgap]
  rw [show r.name.data ++ (g0 :: g') ++ r.tok ++ r.trailing ++ ['\n'] =
      r.name.data ++ ((g0 :: g') ++ (r.tok ++ (r.trailing ++ ['\n']))) by simp]
  rw [wordsAux_word _ hns]
  rw [show (g0 :: g') ++ (r.tok ++ (r.trailing ++ ['\n'])) =
      g0 :: (g' ++ (r.tok ++ (r.trailing ++ ['\n']))) by simp]
  rw [wordsAux_space_emit _ _ _ hg0 (by simpa using hnr)]
  rw [List.append_nil, List.reverse_reverse]
  rw [wordsAux_spaces_lead _ _ hg']
  rw [wordsAux_word _ htks]
  rw [List.append_nil]
  rcases hsh with htr0 | htrc
  · refine ⟨[], ?_⟩
    rw [htr0]
    rw [show ([] : List Char) ++ ['\n'] = '\n' :: [] by simp]
    rw [wordsAux_space_emit _ _ _ (by decide) htkr]
    rw [List.reverse_reverse]
    rfl
  · obtain ⟨t0, t', htr⟩ : ∃ t0 t', r.trailing = t0 :: t' := by
      cases htr : r.trailing with
      | nil => rw [htr] at htrc; simp at htrc
      | cons a b => exact ⟨a, b, rfl⟩
    have ht0 : t0 = ' ' := by
      rw [htr] at htrc; simpa using htrc
    refine ⟨wordsAux (t' ++ ['\n']) [], ?_⟩
    rw [htr, ht0]
    rw [show (' ' :: t') ++ ['\n'] = ' ' :: (t' ++ ['\n']) by simp]
    rw [wordsAux_space_emit _ _ _ (by decide) htkr]
    rw [List.reverse_reverse]

theorem rowChars_eq (r : HklRow) :
    rowChars r = (r.name.data ++ r.gap ++ r.tok ++ r.trailing) ++ ['\n'] := by
  simp [rowChars]

theorem rowChars_noNl (r : HklRow) (hr : GoodRow r) :
    ∀ c ∈ r.name.data ++ r.gap ++ r.tok ++ r.trailing, c ≠ '\n' := by
  obtain ⟨_, hns, _, hgs, _, htks, htr, _⟩ := hr
  intro c hc
  simp only [List.mem_append] at hc
  rcases hc with ((hc | hc) | hc) | hc
  · intro he; subst he; exact absurd (hns _ hc) (by decide)
  · intro he; subst he; exact absurd (hgs _ hc) (by decide)
  · intro he; subst he; exact absurd (htks _ hc) (by decide)
  · exact htr c hc

theorem strFind_row (r : HklRow) (rest : List Char) :
    strFind (rowChars r ++ rest) r.name.data = some 0 := by
  apply strFind_of_isPrefixOf
  rw [List.isPrefixOf_iff_prefix]
  rw [rowChars_eq]
  have : (r.name.data ++ r.gap ++ r.tok ++ r.trailing ++ ['\n']) ++ rest =
      r.name.data ++ (r.gap ++ r.tok ++ r.trailing ++ ['\n'] ++ rest) := by simp
  rw [show (r.name.data ++ r.gap ++ r.tok ++ r.trailing) ++ ['\n'] ++ rest =
      r.name.data ++ (r.gap ++ r.tok ++ r.trailing ++ ['\n'] ++ rest) by simp]
  exact List.prefix_append _ _

theorem takeLine_row (r : HklRow) (rest : List Char) (hr : GoodRow r) :
    takeLine (rowChars r ++ rest) = rowChars r := by
  rw [rowChars_eq]
  rw [show ((r.name.data ++ r.gap ++ r.tok ++ r.trailing) ++ ['\n']) ++ rest =
      (r.name.data ++ r.gap ++ r.tok ++ r.trailing) ++ ('\n' :: rest) by simp]
  exact takeLine_append _ _ (rowChars_noNl r hr)

theorem readParam_row (pre rest : List Char) (r : HklRow) (q : Dec)
    (hr : GoodRow r) (hq : pyFloat r.tok = some q) :
    readParam ⟨pre ++ (rowChars r ++ rest), pre.length⟩ r.name.data =
      (.ok q, ⟨pre ++ (rowChars r ++ rest), pre.length + (rowChars r).length⟩) := by
  have hfind : mmFindFrom ⟨pre ++ (rowChars r ++ rest), pre.length⟩ r.name.data =
      some pre.length := by
    unfold mmFindFrom
    simp only [List.drop_left]
    rw [strFind_row r rest]
    simp
  have hwords : (pyWords (pyStrip (rowChars r))).get? 1 = some r.tok := by
    rw [pyWords_pyStrip]
    obtain ⟨ws, hws⟩ := pyWords_rowChars r hr
    rw [hws]
    rfl
  unfold readParam
  rw [hfind]
  simp only [mmSeek, mmReadline, List.drop_left, takeLine_row r rest hr, hwords, hq]

theorem read_hklAux_scanOrder (rvs : List (HklRow × Dec)) :
    ∀ pre : List Char,
    (∀ p ∈ rvs, GoodRow p.1 ∧ pyFloat p.1.tok = some p.2) →
    read_hklAux (rvs.map (fun p => p.1.name)) ⟨pre ++ flatRows (rvs.map Prod.fst), pre.length⟩ =
      (.ok (rvs.map fun p => (p.1.name, p.2)),
       ⟨pre ++ flatRows (rvs.map Prod.fst),
        pre.length + (flatRows (rvs.map Prod.fst)).length⟩) := by
  induction rvs with
  | nil =>
    intro pre _
    simp [read_hklAux, flatRows]
  | cons p t ih =>
    intro pre h
    obtain ⟨hg, hq⟩ := h p (by simp)
    have ht : ∀ x ∈ t, GoodRow x.1 ∧ pyFloat x.1.tok = some x.2 :=
      fun x hx => h x (by simp [hx])
    simp only [List.map_cons, flatRows, read_hklAux]
    rw [readParam_row pre (flatRows (t.map Prod.fst)) p.1 p.2 hg hq]
    have ih' := ih (pre ++ rowChars p.1) ht
    rw [List.append_assoc, List.length_append] at ih'
    dsimp only
    rw [ih']
    simp [List.length_append, Nat.add_assoc]

theorem read_hkl_scanOrder (rvs : List (HklRow × Dec))
    (hnames : rvs.map (fun p => p.1.name) = hklParams)
    (h : ∀ p ∈ rvs, GoodRow p.1 ∧ pyFloat p.1.tok = some p.2) :
    read_hkl (mkFile (rvs.map Prod.fst)) = .ok (rvs.map fun p => (p.1.name, p.2)) := by
  unfold read_hkl
  rw [← hnames]
  have hmain := read_hklAux_scanOrder rvs [] h
  simp only [List.nil_append, List.length_nil] at hmain
  have hmm : (⟨(mkFile (rvs.map Prod.fst)).data, 0⟩ : MM) =
      ⟨flatRows (rvs.map Prod.fst), 0⟩ := rfl
  rw [hmm, hmain]

theorem execInner_mono (outF pf : String) (w : Dec) (samples : List (String × String)) :
    ∀ fs x, x ∈ fs → x ∈ (execInner outF pf w samples fs).1 := by
  induction samples with
  | nil => intro fs x hx; simpa [execInner] using hx
  | cons s t ih =>
    intro fs x hx
    simp only [execInner]
    exact ih _ x (List.mem_append_left _ hx)

theorem execInner_base (outF pf : String) (w : Dec) (samples : List (String × String)) :
    ∀ fs, ∀ s ∈ samples, folderName outF pf w s.1 ∈ (execInner outF pf w samples fs).1 := by
  induction samples with
  | nil => intro fs s hs; simp at hs
  | cons a t ih =>
    intro fs s hs
    rcases List.mem_cons.mp hs with h | h
    · subst h
      simp only [execInner]
      apply execInner_mono
      by_cases hb : folderName outF pf w s.1 ∈ fs
      · exact List.mem_append_left _ hb
      · have hinc : incrementName fs (folderName outF pf w s.1) = folderName outF pf w s.1 := by
          unfold incrementName
          rw [if_neg hb]
        rw [hinc]
        simp
    · simp only [execInner]
      exact ih _ s h

theorem execOuter_mono (outF pf : String) (wls : List Dec) (samples : List (String × String)) :
    ∀ fs x, x ∈ fs → x ∈ (execOuter outF pf wls samples fs).1 := by
  induction wls with
  | nil => intro fs x hx; simpa [execOuter] using hx
  | cons w ws ih =>
    intro fs x hx
    simp only [execOuter]
    exact ih _ x (execInner_mono outF pf w samples fs x hx)

theorem execOuter_base (outF pf : String) (wls : List Dec) (samples : List (String × String)) :
    ∀ fs, ∀ w ∈ wls, ∀ s ∈ samples,
      folderName outF pf w s.1 ∈ (execOuter outF pf wls samples fs).1 := by
  induction wls with
  | nil => intro fs w hw; simp at hw
  | cons a ws ih =>
    intro fs w hw s hs
    rcases List.mem_cons.mp hw with h | h
    · subst h
      simp only [execOuter]
      exact execOuter_mono outF pf ws samples _ _ (execInner_base outF pf w samples fs s hs)
    · simp only [execOuter]
      exact ih _ w h s hs

theorem execInner_keys (outF pf : String) (w : Dec) (samples : List (String × String)) :
    ∀ fs, (execInner outF pf w samples fs).2.map Prod.fst = samples.map Prod.fst := by
  induction samples with
  | nil => intro fs; simp [execInner]
  | cons a t ih =>
    intro fs
    simp only [execInner, List.map_cons]
    rw [ih]

theorem execOuter_collKeys (outF pf : String) (wls : List Dec) (samples : List (String × String)) :
    ∀ fs, collKeys (execOuter outF pf wls samples fs).2 =
      wls.flatMap (fun w => samples.map (fun s => (w, s.1))) := by
  induction wls with
  | nil => intro fs; simp [execOuter, collKeys]
  | cons w ws ih =>
    intro fs
    simp only [execOuter, collKeys, List.flatMap_cons]
    have hmap : (execInner outF pf w samples fs).2.map (fun p => (w, p.1)) =
        samples.map (fun s => (w, s.1)) := by
      have h1 := congrArg (List.map (fun x : String => (w, x)))
        (execInner_keys outF pf w samples fs)
      rw [List.map_map, List.map_map] at h1
      exact h1
    rw [hmap]
    have hrest := ih (execInner outF pf w samples fs).1
    simp only [collKeys] at hrest
    rw [hrest]

theorem replayInner_ok (outF pf po : String) (w : Dec) (fs : List String)
    (names : List String) (h : ∀ n ∈ names, folderName outF pf w n ++ po ∈ fs) :
    replayInner outF pf po w fs names =
      .ok (names.map (fun n => (n, folderName outF pf w n ++ po))) := by
  induction names with
  | nil => simp [replayInner]
  | cons n t ih =>
    have hn := h n (by simp)
    simp only [replayInner, load_data, if_pos hn, List.map_cons]
    rw [ih (fun x hx => h x (by simp [hx]))]

theorem replayOuter_ok (outF pf po : String) (fs : List String)
    (wls : List Dec) (names : List String)
    (h : ∀ w ∈ wls, ∀ n ∈ names, folderName outF pf w n ++ po ∈ fs) :
    replayOuter outF pf po fs wls names =
      .ok (wls.map (fun w => (w, names.map (fun n => (n, folderName outF pf w n ++ po))))) := by
  induction wls with
  | nil => simp [replayOuter]
  | cons w ws ih =>
    simp only [replayOuter, List.map_cons]
    rw [replayInner_ok outF pf po w fs names (h w (by simp))]
    rw [ih (fun x hx => h x (by simp [hx]))]

theorem string_append_empty (s : String) : s ++ "" = s := by
  apply String.ext
  rw [String.data_append]
  simp

theorem collKeys_replay (outF pf po : String) (wls : List Dec) (names : List String) :
    collKeys (wls.map (fun w => (w, names.map (fun n => (n, folderName outF pf w n ++ po))))) =
      wls.flatMap (fun w => names.map (fun n => (w, n))) := by
  induction wls with
  | nil => simp [collKeys]
  | cons w ws ih =>
    simp only [List.map_cons, collKeys, List.flatMap_cons]
    simp only [collKeys] at ih
    rw [ih, List.map_map]
    simp [Function.comp]

theorem replayInner_err_char (outF pf po : String) (w : Dec) (fs : List String)
    (names : List String) (e : Err)
    (h : replayInner outF pf po w fs names = .error e) :
    ∃ n ∈ names, e = .datasetNotFound (folderName outF pf w n ++ po) ∧
      folderName outF pf w n ++ po ∉ fs := by
  induction names with
  | nil => simp [replayInner] at h
  | cons n t ih =>
    by_cases hn : folderName outF pf w n ++ po ∈ fs
    · simp only [replayInner, load_data, if_pos hn] at h
      cases hrec : replayInner outF pf po w fs t with
      | error e' =>
        rw [hrec] at h
        obtain ⟨x, hx, he, hnx⟩ := ih (by rw [hrec]; cases h; rfl)
        exact ⟨x, by simp [hx], he, hnx⟩
      | ok row => rw [hrec] at h; cases h
    · simp only [replayInner, load_data, if_neg hn] at h
      cases h
      exact ⟨n, by simp, rfl, hn⟩

theorem replayInner_ok_all (outF pf po : String) (w : Dec) (fs : List String)
    (names : List String) (row : List (String × String))
    (h : replayInner outF pf po w fs names = .ok row) :
    ∀ n ∈ names, folderName outF pf w n ++ po ∈ fs := by
  induction names generalizing row with
  | nil => intro n hn; simp at hn
  | cons a t ih =>
    intro n hn
    by_cases ha : folderName outF pf w a ++ po ∈ fs
    · rcases List.mem_cons.mp hn with rfl | hnt
      · exact ha
      · simp only [replayInner, load_data, if_pos ha] at h
        cases hrec : replayInner outF pf po w fs t with
        | error e' => rw [hrec] at h; cases h
        | ok row' => exact ih row' hrec n hnt
    · simp only [replayInner, load_data, if_neg ha] at h
      cases h

theorem replayOuter_err_char (outF pf po : String) (fs : List String)
    (wls : List Dec) (names : List String) (e : Err)
    (h : replayOuter outF pf po fs wls names = .error e) :
    ∃ w ∈ wls, ∃ n ∈ names, e = .datasetNotFound (folderName outF pf w n ++ po) ∧
      folderName outF pf w n ++ po ∉ fs := by
  induction wls with
  | nil => simp [replayOuter] at h
  | cons w ws ih =>
    cases hinner : replayInner outF pf po w fs names with
    | error e' =>
      simp only [replayOuter, hinner] at h
      cases h
      obtain ⟨n, hn, he, hnn⟩ := replayInner_err_char outF pf po w fs names _ hinner
      exact ⟨w, by simp, n, hn, he, hnn⟩
    | ok row =>
      simp only [replayOuter, hinner] at h
      cases hrec : replayOuter outF pf po fs ws names with
      | error e' =>
        rw [hrec] at h
        obtain ⟨w', hw', n, hn, he, hnn⟩ := ih (by rw [hrec]; cases h; rfl)
        exact ⟨w', by simp [hw'], n, hn, he, hnn⟩
      | ok rows => rw [hrec] at h; cases h

theorem replayOuter_ok_all (outF pf po : String) (fs : List String)
    (wls : List Dec) (names : List String)
    (coll : List (Dec × List (String × String)))
    (h : replayOuter outF pf po fs wls names = .ok coll) :
    ∀ w ∈ wls, ∀ n ∈ names, folderName outF pf w n ++ po ∈ fs := by
  induction wls generalizing coll with
  | nil => intro w hw; simp at hw
  | cons w0 ws ih =>
    intro w hw n hn
    cases hinner : replayInner outF pf po w0 fs names with
    | error e =>
      simp only [replayOuter, hinner] at h
      exact Except.noConfusion h
    | ok row =>
      simp only [replayOuter, hinner] at h
      cases hrec : replayOuter outF pf po fs ws names with
      | error e =>
        simp only [hrec] at h
        exact Except.noConfusion h
      | ok rows =>
        rcases List.mem_cons.mp hw with rfl | hwt
        · exact replayInner_ok_all outF pf po w fs names row hinner n hn
        · exact ih rows hrec w hwt n hn

theorem replayOuter_err_of_missing (outF pf po : String) (fs : List String)
    (wls : List Dec) (names : List String)
    (h : ∃ w ∈ wls, ∃ n ∈ names, folderName outF pf w n ++ po ∉ fs) :
    ∃ e, replayOuter outF pf po fs wls names = .error e := by
  cases hrep : replayOuter outF pf po fs wls names with
  | error e => exact ⟨e, rfl⟩
  | ok coll =>
    exfalso
    obtain ⟨w, hw, n, hn, hmiss⟩ := h
    exact hmiss (replayOuter_ok_all outF pf po fs wls names coll hrep w hw n hn)

theorem readParam_data (mm : MM) (pm : List Char) :
    ((readParam mm pm).2).data = mm.data := by
  unfold readParam
  cases hf : mmFindFrom mm pm with
  | none => rfl
  | some p =>
    simp only [mmSeek, mmReadline]
    cases hw : (pyWords (pyStrip (takeLine (mm.data.drop p)))).get? 1 with
    | none => rfl
    | some t =>
      cases hq : pyFloat t with
      | none => simp [hq]
      | some q => simp [hq]

theorem read_hklAux_data (pms : List String) :
    ∀ mm : MM, ((read_hklAux pms mm).2).data = mm.data := by
  induction pms with
  | nil => intro mm; rfl
  | cons pm rest ih =>
    intro mm
    cases hp : readParam mm pm.data with
    | mk r mm' =>
      have hd : mm'.data = mm.data := by
        have := readParam_data mm pm.data
        rw [hp] at this
        exact this
      cases r with
      | error e => simp only [read_hklAux, hp]; exact hd
      | ok q =>
        simp only [read_hklAux, hp]
        cases hrec : read_hklAux rest mm' with
        | mk r' mm'' =>
          have hd' : mm''.data = mm'.data := by
            have := ih mm'
            rw [hrec] at this
            exact this
          cases r' with
          | error e => simpa [hd'] using hd
          | ok vs => simpa [hd'] using hd

theorem strFind_none_drop (l pat : List Char) (h : strFind l pat = none) :
    ∀ k, strFind (l.drop k) pat = none := by
  induction l with
  | nil =>
    intro k
    simpa using h
  | cons c t ih =>
    intro k
    cases k with
    | zero => simpa using h
    | succ k' =>
      unfold strFind at h
      by_cases hp : pat.isPrefixOf (c :: t) = true
      · rw [if_pos hp] at h; cases h
      · rw [if_neg hp] at h
        have h' : Option.map (fun x => x + 1) (strFind t pat) = none := h
        have ht : strFind t pat = none := by
          cases hst : strFind t pat with
          | none => rfl
          | some v => rw [hst] at h'; simp at h'
        simpa using ih ht k'

theorem readParam_err_of_absent (mm : MM) (pm : List Char)
    (h : strFind mm.data pm = none) :
    (readParam mm pm).1 = .error .valueErrorSeekOutOfRange := by
  unfold readParam
  have hf : mmFindFrom mm pm = none := by
    unfold mmFindFrom
    rw [strFind_none_drop mm.data pm h mm.pos]
    rfl
  rw [hf]

theorem read_hklAux_err_of_absent (pms : List String) :
    ∀ mm : MM, (∃ pm ∈ pms, strFind mm.data pm.data = none) →
      ∃ e, (read_hklAux pms mm).1 = .error e := by
  induction pms with
  | nil => intro mm h; simp at h
  | cons pm rest ih =>
    intro mm h
    cases hp : readParam mm pm.data with
    | mk r mm' =>
      cases r with
      | error e => exact ⟨e, by simp only [read_hklAux, hp]⟩
      | ok q =>
        obtain ⟨x, hx, hfind⟩ := h
        rcases List.mem_cons.mp hx with rfl | hxt
        · exfalso
          have := readParam_err_of_absent mm x.data hfind
          rw [hp] at this
          cases this
        · have hd : mm'.data = mm.data := by
            have := readParam_data mm pm.data
            rw [hp] at this
            exact this
          obtain ⟨e, he⟩ := ih mm' ⟨x, hxt, by rw [hd]; exact hfind⟩
          refine ⟨e, ?_⟩
          simp only [read_hklAux, hp]
          cases hrec : read_hklAux rest mm' with
          | mk r' mm'' =>
            rw [hrec] at he
            cases r' with
            | error e' => simpa using he
            | ok vs => cases he

theorem readParam_not_missingField (mm : MM) (pm : List Char) (s : String) :
    (readParam mm pm).1 ≠ .error (.missingField s) := by
  unfold readParam
  cases hf : mmFindFrom mm pm with
  | none => simp
  | some p =>
    simp only [mmSeek, mmReadline]
    cases hw : (pyWords (pyStrip (takeLine (mm.data.drop p)))).get? 1 with
    | none => simp
    | some t =>
      cases hq : pyFloat t with
      | none => simp [hq]
      | some q => simp [hq]

theorem read_hklAux_not_missingField (pms : List String) :
    ∀ (mm : MM) (s : String), (read_hklAux pms mm).1 ≠ .error (.missingField s) := by
  induction pms with
  | nil => intro mm s; simp [read_hklAux]
  | cons pm rest ih =>
    intro mm s
    cases hp : readParam mm pm.data with
    | mk r mm' =>
      cases r with
      | error e =>
        simp only [read_hklAux, hp]
        have hnm := readParam_not_missingField mm pm.data s
        rw [hp] at hnm
        simpa using hnm
      | ok q =>
        simp only [read_hklAux, hp]
        cases hrec : read_hklAux rest mm' with
        | mk r' mm'' =>
          cases r' with
          | error e' =>
            simp only [hrec]
            have hnm := ih mm' s
            rw [hrec] at hnm
            simpa using hnm
          | ok vs => simp [hrec]

theorem plotStep_globals (results : List (Dec × List (String × PatternData))) (w : Dec)
    (env : PlotEnv) (crys : String) (env' : PlotEnv)
    (h : plotStep results w env crys = .ok env') : env'.g = env.g := by
  unfold plotStep at h
  cases h1 : alookupD w results with
  | none =>
    simp only [h1] at h
    exact Except.noConfusion h
  | some row =>
    simp only [h1] at h
    cases h2 : alookup crys row with
    | none =>
      simp only [h2] at h
      exact Except.noConfusion h
    | some pattern =>
      simp only [h2] at h
      cases h
      rfl

theorem plotInner_globals (results : List (Dec × List (String × PatternData))) (w : Dec) :
    ∀ (cr : List String) (env : PlotEnv), ((plotInner results w env cr).1).g = env.g := by
  intro cr
  induction cr with
  | nil => intro env; rfl
  | cons c t ih =>
    intro env
    cases hs : plotStep results w env c with
    | error e => simp only [plotInner, hs]
    | ok env' =>
      simp only [plotInner, hs]
      rw [ih env']
      exact plotStep_globals results w env c env' hs

theorem plot_diffr_globals (results : List (Dec × List (String × PatternData)))
    (cr : List String) :
    ∀ (wls : List Dec) (env : PlotEnv), ((plot_diffr wls results cr env).1).g = env.g := by
  intro wls
  induction wls with
  | nil => intro env; rfl
  | cons w ws ih =>
    intro env
    cases hres : plotInner results w env cr with
    | mk env' oe =>
      have hg : env'.g = env.g := by
        have h := plotInner_globals results w cr env
        rw [hres] at h
        exact h
      cases oe with
      | none =>
        simp only [plot_diffr, hres]
        rw [ih env']
        exact hg
      | some e =>
        simp only [plot_diffr, hres]
        exact hg

/-- C3: the output-folder path formula
`<output_folder>/<prefix>_<wavelength:.1f>_<sample_id>` is deterministic
(it is a pure function, `folderName`) and injective over the configured
Cartesian product of Sweep Points: the configured product has no
duplicate points, and mapping the formula over it yields pairwise
distinct paths. -/
theorem c3_paths_injective :
    sweepPoints.Nodup ∧
      (sweepPoints.map (fun p => folderName output_folder pfx p.1 p.2)).Nodup := by
  decide

/-- C4: in execute mode with configured wavelengths `(1.0, 1.5)` and
samples `{"a": "a.hkl", "b": "b.hkl"}`, the Sweep Orchestrator invokes
the Sample Runner exactly 4 times, in the order
(1.0,"a"), (1.0,"b"), (1.5,"a"), (1.5,"b") (outer loop wavelengths,
inner loop samples, in configured order), producing the output folders
`prefix_1.0_a`, `prefix_1.0_b`, `prefix_1.5_a`, `prefix_1.5_b` under
the output folder. -/
theorem c4_sweep_order :
    collKeys (execOuter "out" "prefix" [⟨10, -1⟩, ⟨15, -1⟩]
        [("a", "a.hkl"), ("b", "b.hkl")] []).2 =
      [(⟨10, -1⟩, "a"), (⟨10, -1⟩, "b"), (⟨15, -1⟩, "a"), (⟨15, -1⟩, "b")] ∧
    collFolders (execOuter "out" "prefix" [⟨10, -1⟩, ⟨15, -1⟩]
        [("a", "a.hkl"), ("b", "b.hkl")] []).2 =
      ["out/prefix_1.0_a", "out/prefix_1.0_b", "out/prefix_1.5_a", "out/prefix_1.5_b"] ∧
    (collKeys (execOuter "out" "prefix" [⟨10, -1⟩, ⟨15, -1⟩]
        [("a", "a.hkl"), ("b", "b.hkl")] []).2).length = 4 := by
  decide

/-- C5: replay mode is a left-inverse of execute mode with respect to
the Result Collection's keys: running the execute-mode sweep and then
replaying against the folders it created, with the same configuration
and an empty rear affix, succeeds and recovers a Result Collection with
exactly the same (wavelength, sample identifier) keys. -/
theorem c5_replay_left_inverse (outF pf : String) (wls : List Dec)
    (samples : List (String × String)) (fs0 : List String) :
    ∃ coll',
      replayOuter outF pf "" (execOuter outF pf wls samples fs0).1 wls
          (samples.map Prod.fst) = .ok coll' ∧
        collKeys coll' = collKeys (execOuter outF pf wls samples fs0).2 := by
  refine ⟨_, replayOuter_ok outF pf "" _ wls (samples.map Prod.fst) ?_, ?_⟩
  · intro w hw n hn
    obtain ⟨s, hs, rfl⟩ := List.mem_map.mp hn
    rw [string_append_empty]
    exact execOuter_base outF pf wls samples fs0 w hw s hs
  · rw [collKeys_replay, execOuter_collKeys]
    simp only [List.map_map]
    rfl

/-- C6: for every replay over a folder list from which some Sweep
Point's deterministic output folder is absent, replay mode fails with a
`DatasetNotFoundError` identifying a missing folder path of a Sweep
Point in the product; it never returns a Result Collection (so no empty
dataset is silently produced and there is no fallback to execution,
`replayOuter` containing no call to the execute path). -/
theorem c6_replay_missing_folder (outF pf po : String) (fs : List String)
    (wls : List Dec) (names : List String)
    (h : ∃ w ∈ wls, ∃ n ∈ names, folderName outF pf w n ++ po ∉ fs) :
    ∃ p, replayOuter outF pf po fs wls names = .error (.datasetNotFound p) ∧
      p ∉ fs ∧ (∃ w ∈ wls, ∃ n ∈ names, p = folderName outF pf w n ++ po) ∧
      ∀ coll, replayOuter outF pf po fs wls names ≠ .ok coll := by
  obtain ⟨e, he⟩ := replayOuter_err_of_missing outF pf po fs wls names h
  obtain ⟨w, hw, n, hn, hee, hmiss⟩ := replayOuter_err_char outF pf po fs wls names e he
  subst hee
  refine ⟨_, he, hmiss, ⟨w, hw, n, hn, rfl⟩, ?_⟩
  intro coll hc
  rw [he] at hc
  cases hc

/-- C6 witness: replaying wavelength 1.0, sample `"a"` against an empty
folder list fails with a `DatasetNotFoundError`. -/
theorem c6_witness :
    (∃ w ∈ [(⟨10, -1⟩ : Dec)], ∃ n ∈ ["a"],
        folderName "out" "prefix" w n ++ "" ∉ ([] : List String)) ∧
      ∃ p, replayOuter "out" "prefix" "" [] [⟨10, -1⟩] ["a"] =
          .error (.datasetNotFound p) ∧
        p ∉ ([] : List String) ∧
        (∃ w ∈ [(⟨10, -1⟩ : Dec)], ∃ n ∈ ["a"],
          p = folderName "out" "prefix" w n ++ "") ∧
        ∀ coll, replayOuter "out" "prefix" "" [] [⟨10, -1⟩] ["a"] ≠ .ok coll := by
  have hm : ∃ w ∈ [(⟨10, -1⟩ : Dec)], ∃ n ∈ ["a"],
      folderName "out" "prefix" w n ++ "" ∉ ([] : List String) :=
    ⟨⟨10, -1⟩, by simp, "a", by simp, by simp⟩
  exact ⟨hm, c6_replay_missing_folder "out" "prefix" "" [] [⟨10, -1⟩] ["a"] hm⟩

/-- C7: on any Reflection-List File content the Reader accepts, the
Parameter Mapper returns exactly the keys Vc, density, weight,
sigma_abs, sigma_inc, reflections, barns; the five numeric entries equal
the corresponding Reader values, `reflections` is the HKL file path
wrapped in double-quote characters, and `barns` is the constant 1. -/
theorem c7_parameter_mapper (hkl_file content : String)
    (m : List (String × Dec)) (vVc vDen vW vAbs vInc : Dec)
    (hm : read_hkl content = .ok m)
    (h1 : alookup "Vc" m = some vVc) (h2 : alookup "density" m = some vDen)
    (h3 : alookup "weight" m = some vW) (h4 : alookup "sigma_abs" m = some vAbs)
    (h5 : alookup "sigma_inc" m = some vInc) :
    hkl_to_powdern_pms hkl_file content =
      .ok [("Vc", .num vVc), ("density", .num vDen), ("weight", .num vW),
           ("sigma_abs", .num vAbs), ("sigma_inc", .num vInc),
           ("reflections", .str ("\"" ++ hkl_file ++ "\"")), ("barns", .num ⟨1, 0⟩)] := by
  unfold hkl_to_powdern_pms
  simp only [hm, h1, h2, h3, h4, h5]

/-- C7 witness: the Parameter Mapper applied to the C8 example file. -/
theorem c7_witness :
    read_hkl c8File = .ok (c8Rows.map fun p => (p.1.name, p.2)) ∧
      hkl_to_powdern_pms "./hkl/c16.hkl" c8File =
        .ok [("Vc", .num ⟨45385, -3⟩), ("density", .num ⟨3513, -3⟩),
             ("weight", .num ⟨12011, -3⟩), ("sigma_abs", .num ⟨1720, -4⟩),
             ("sigma_inc", .num ⟨0, -1⟩),
             ("reflections", .str "\"./hkl/c16.hkl\""), ("barns", .num ⟨1, 0⟩)] := by
  have hm : read_hkl c8File = .ok (c8Rows.map fun p => (p.1.name, p.2)) :=
    read_hkl_scanOrder c8Rows (by decide) (by decide)
  refine ⟨hm, ?_⟩
  exact c7_parameter_mapper "./hkl/c16.hkl" c8File
    (c8Rows.map fun p => (p.1.name, p.2))
    ⟨45385, -3⟩ ⟨3513, -3⟩ ⟨12011, -3⟩ ⟨1720, -4⟩ ⟨0, -1⟩ hm
    (by decide) (by decide) (by decide) (by decide) (by decide)

/-- C9 counterexample: the claim says `plot_diffr` overwrites the
sweep-configuration `ncount` with `pattern.Ncount`, so that afterwards
it no longer holds its configured value.  On the code, the assignment
inside the function body creates a function-local binding: plotting a
dataset whose `Ncount` is 42 with configured `ncount = 1e7` terminates
without error, binds the local name to 42, and leaves the configuration
variable equal to its configured value `1e7` (and hence not equal to
`pattern.Ncount`). -/
theorem c9_counterexample :
    demoPattern.Ncount = ⟨42, 0⟩ ∧
      (plot_diffr [⟨10, -1⟩] demoResults ["c16"] ⟨⟨⟨1, 7⟩⟩, none⟩).2 = none ∧
      ((plot_diffr [⟨10, -1⟩] demoResults ["c16"] ⟨⟨⟨1, 7⟩⟩, none⟩).1).ncountLocal =
        some ⟨42, 0⟩ ∧
      ((plot_diffr [⟨10, -1⟩] demoResults ["c16"] ⟨⟨⟨1, 7⟩⟩, none⟩).1).g.ncount = ⟨1, 7⟩ ∧
      ((plot_diffr [⟨10, -1⟩] demoResults ["c16"] ⟨⟨⟨1, 7⟩⟩, none⟩).1).g.ncount ≠
        demoPattern.Ncount := by
  decide

/-- C9 amended: inside `plot_diffr` the name `ncount` is re-bound to
`pattern.Ncount` as a function-local variable, shadowing the
sweep-configuration variable; the globals (the configured `ncount`
among them) are unchanged by plotting, while the local binding takes
the plotted dataset's ray count. -/
theorem c9_amended :
    (∀ (wls : List Dec) (results : List (Dec × List (String × PatternData)))
        (cr : List String) (env : PlotEnv),
        ((plot_diffr wls results cr env).1).g = env.g) ∧
      ((plot_diffr [⟨10, -1⟩] demoResults ["c16"] ⟨⟨⟨1, 7⟩⟩, none⟩).1).ncountLocal =
        some demoPattern.Ncount := by
  exact ⟨fun wls results cr env => plot_diffr_globals results cr wls env, by decide⟩

/-- C10: the Reader never writes through the memory mapping: for every
file content, the mmap state left behind by the `read_hkl` scan (which
performs only find, seek and readline operations) carries the same byte
content the file started with, whether the scan succeeds or fails. -/
theorem c10_read_only (content : String) :
    (read_hklFinalMM content).data = content.data := by
  unfold read_hklFinalMM
  exact read_hklAux_data hklParams ⟨content.data, 0⟩

set_option maxRecDepth 65536 in
/-- C1 counterexample: `c1File` contains all twelve required field
names, each on its own line as `<name> <value>` (every name occurs in
the file), yet `read_hkl` does not return the twelve-field mapping: the
scan fails with the `ValueError` raised by seeking to the `-1`
find-sentinel, because `density` lies before the line at which its
search starts. -/
theorem c1_counterexample :
    (∀ pm ∈ hklParams, strFind c1File.data pm.data ≠ none) ∧
      read_hkl c1File = .error .valueErrorSeekOutOfRange := by
  decide

set_option maxRecDepth 8192 in
/-- C1 (amended): for every Reflection-List File whose twelve required
fields appear each on its own line as `<name><spaces><value>[<trailing
text>]` in the order of the reader's fixed parameter list (sigma_coh,
sigma_inc, sigma_abs, density, weight, Vc, lattice_a, lattice_b,
lattice_c, lattice_aa, lattice_bb, lattice_cc), with tokens the Python
float parser accepts, `read_hkl` returns exactly the mapping of those
twelve names to their parsed values.  (The original "in any order" is
refuted by `c1_counterexample`: each name is searched only forward of
the previous field's line.) -/
theorem c1_amended (rvs : List (HklRow × Dec))
    (hnames : rvs.map (fun p => p.1.name) = hklParams)
    (h : ∀ p ∈ rvs, GoodRow p.1 ∧ pyFloat p.1.tok = some p.2) :
    read_hkl (mkFile (rvs.map Prod.fst)) = .ok (rvs.map fun p => (p.1.name, p.2)) :=
  read_hkl_scanOrder rvs hnames h

set_option maxRecDepth 8192 in
/-- C1 witness: the amended theorem applied to the concrete twelve-row
file `c8Rows`. -/
theorem c1_amended_witness :
    (c8Rows.map (fun p => p.1.name) = hklParams) ∧
      (∀ p ∈ c8Rows, GoodRow p.1 ∧ pyFloat p.1.tok = some p.2) ∧
      read_hkl (mkFile (c8Rows.map Prod.fst)) =
        .ok (c8Rows.map fun p => (p.1.name, p.2)) :=
  ⟨by decide, by decide, c1_amended c8Rows (by decide) (by decide)⟩

set_option maxRecDepth 65536 in
/-- C2 counterexample: on `c2File`, from which the required field
`sigma_coh` is absent, `read_hkl` fails with the generic `ValueError`
raised by seeking to the `-1` find-sentinel — not with a
`MissingFieldError` naming the absent field — and returns no mapping. -/
theorem c2_counterexample :
    read_hkl c2File = .error .valueErrorSeekOutOfRange ∧
      (¬ ∃ s, read_hkl c2File = .error (.missingField s)) ∧
      (¬ ∃ m, read_hkl c2File = .ok m) := by
  have h : read_hkl c2File = .error .valueErrorSeekOutOfRange := by decide
  refine ⟨h, ?_, ?_⟩
  · rintro ⟨s, hs⟩
    rw [h] at hs
    simp at hs
  · rintro ⟨m, hm⟩
    rw [h] at hm
    cases hm

/-- C2 (amended): for every Reflection-List File from which one of the
twelve required field names is absent (its bytes occur nowhere in the
file), `read_hkl` fails — it returns no mapping at all, so in
particular no partial mapping — but the error it fails with never is a
`MissingFieldError` naming the absent field: the source raises only the
generic `ValueError`/`IndexError` exceptions of the mmap scan. -/
theorem c2_amended (content : String)
    (h : ∃ pm ∈ hklParams, strFind content.data pm.data = none) :
    (∀ m, read_hkl content ≠ .ok m) ∧
      (∀ s, read_hkl content ≠ .error (.missingField s)) := by
  constructor
  · intro m hm
    obtain ⟨e, he⟩ :=
      read_hklAux_err_of_absent hklParams ⟨content.data, 0⟩ (by exact h)
    unfold read_hkl at hm
    rw [hm] at he
    cases he
  · intro s
    exact read_hklAux_not_missingField hklParams ⟨content.data, 0⟩ s

set_option maxRecDepth 65536 in
/-- C2 witness: the amended theorem applied to `c2File`, which lacks
`sigma_coh`. -/
theorem c2_amended_witness :
    (∃ pm ∈ hklParams, strFind c2File.data pm.data = none) ∧
      (∀ m, read_hkl c2File ≠ .ok m) := by
  have hmiss : ∃ pm ∈ hklParams, strFind c2File.data pm.data = none :=
    ⟨"sigma_coh", by decide, by decide⟩
  exact ⟨hmiss, (c2_amended c2File hmiss).1⟩

set_option maxRecDepth 65536 in
/-- C8: on the Reflection-List File containing the line
`sigma_abs   0.1720   # comment`, the Reader returns
`sigma_abs = 0.1720` (the exact decimal 1720/10^4), ignoring the
trailing comment and any tokens after the value. -/
theorem c8_sigma_abs_comment :
    c8File = "sigma_coh 5.56\nsigma_inc 0.0\nsigma_abs   0.1720   # comment\ndensity 3.513\nweight 12.011\nVc 45.385\nlattice_a 3.57\nlattice_b 3.57\nlattice_c 3.57\nlattice_aa 90\nlattice_bb 90\nlattice_cc 90\n" ∧
      (∃ m, read_hkl c8File = .ok m ∧ alookup "sigma_abs" m = some ⟨1720, -4⟩) ∧
      Dec.toRat ⟨1720, -4⟩ = 0.1720 := by
  have hm : read_hkl c8File = .ok (c8Rows.map fun p => (p.1.name, p.2)) :=
    read_hkl_scanOrder c8Rows (by decide) (by decide)
  refine ⟨by decide, ⟨_, hm, by decide⟩, ?_⟩
  norm_num [Dec.toRat]
